import Mathlib

/-
Verification of the VGA text-buffer console writer (src/vga_buffer.rs).

The writer is modelled as a pure state machine.  The 25×80 grid of
`ScreenChar` cells is a total function `Nat → Nat → ScreenChar`; every
access that the Rust code performs with a cursor-derived (hence not
statically bounded) index goes through the bounds-checked `readCell` /
`writeCell`, whose `none` result models the panic of Rust's checked array
indexing.  Loop-indexed accesses in `shift_up` / `clear_row` use literal
loop bounds (`1..25`, `0..80`) that are always within the array bounds, so
they are modelled with the raw store update `updCell`.  Fallible
operations return `Option`; `none` means the Rust code panics.
-/

set_option maxRecDepth 100000

namespace VgaBuffer

def BUFFER_HEIGHT : Nat := 25
def BUFFER_WIDTH : Nat := 80

structure ScreenChar where
  ascii_character : Nat
  color_code : Nat
deriving DecidableEq

/-- The 25×80 cell grid (`Buffer.chars`).  Only indices
`r < 25`, `c < 80` are ever read or written by the model. -/
def Grid : Type := Nat → Nat → ScreenChar

/-- Raw store update of one cell (a `Volatile::write` whose indices are
statically in bounds). -/
def updCell (g : Grid) (r c : Nat) (v : ScreenChar) : Grid :=
  fun r' c' => if r' = r ∧ c' = c then v else g r' c'

/-- Bounds-checked read `self.buffer.chars[r][c].read()`; `none` models the
out-of-bounds panic of Rust's checked indexing. -/
def readCell (g : Grid) (r c : Nat) : Option ScreenChar :=
  if r < BUFFER_HEIGHT ∧ c < BUFFER_WIDTH then some (g r c) else none

/-- Bounds-checked write `self.buffer.chars[r][c].write(v)`; `none` models
the out-of-bounds panic of Rust's checked indexing. -/
def writeCell (g : Grid) (r c : Nat) (v : ScreenChar) : Option Grid :=
  if r < BUFFER_HEIGHT ∧ c < BUFFER_WIDTH then some (updCell g r c v) else none

/-- `Writer` state: cursor, fixed color, grid, input-mode flag. -/
structure Writer where
  column_position : Nat
  row_position : Nat
  color_code : Nat
  buffer : Grid
  input_mode : Bool

/-- `Writer::shift_up`: `for row in 1..25 { for col in 0..80 { let ch =
chars[row][col].read(); if !(row <= 0) { chars[row-1][col].write(ch) } } }`.
The loop indices `row ∈ 1..25`, `col ∈ 0..80` are always within the array
bounds. -/
def Writer.shift_up (w : Writer) : Writer :=
  let g1 :=
    (List.range' 1 (BUFFER_HEIGHT - 1)).foldl (fun g row =>
      (List.range BUFFER_WIDTH).foldl (fun g col =>
        let character := g row col
        if row ≤ 0 then g else updCell g (row - 1) col character) g) w.buffer
  { w with buffer := g1 }

/-- `Writer::clear_row`: writes a blank `ScreenChar { ascii_character: b' ',
color_code }` to every column of `row`.  The loop index `col ∈ 0..80` is
always within the array bounds; callers pass `row = 24`. -/
def Writer.clear_row (w : Writer) (row : Nat) : Writer :=
  let g1 :=
    (List.range BUFFER_WIDTH).foldl
      (fun g col => updCell g row col ⟨0x20, w.color_code⟩) w.buffer
  { w with buffer := g1 }

/-- `Writer::new_line`: scroll (shift up + clear bottom row) when on the
last row, otherwise increment the row; reset the column in both cases. -/
def Writer.new_line (w : Writer) : Writer :=
  if w.row_position = BUFFER_HEIGHT - 1 then
    let w1 := (w.shift_up).clear_row (BUFFER_HEIGHT - 1)
    { w1 with column_position := 0 }
  else
    { w with row_position := w.row_position + 1, column_position := 0 }

/-- `Writer::write_byte`: `\n` triggers `new_line`; otherwise wrap first if
`column_position >= BUFFER_WIDTH`, then write the byte with the fixed color
at the cursor and advance the column. -/
def Writer.write_byte (w : Writer) (byte : Nat) : Option Writer :=
  if byte = 10 then some w.new_line
  else
    let w := if BUFFER_WIDTH ≤ w.column_position then w.new_line else w
    let row := w.row_position
    let col := w.column_position
    let color_code := w.color_code
    match writeCell w.buffer row col ⟨byte, color_code⟩ with
    | some g => some { w with buffer := g, column_position := col + 1 }
    | none => none

/-- The loop of `Writer::get_last_col`: starting at `col`, scan forward for
a cell with character code `0x00` and return its column.  Each iteration
performs the checked read `chars[row][col].read()`; reaching `col = 80`
with no sentinel found makes that read panic (`none`).  The structural
`fuel` argument only bounds recursion depth; it is called with fuel 81 and
never runs out before the column check fails (the column grows by 1 per
step), so it does not alter the semantics. -/
def get_last_col_aux (g : Grid) (row : Nat) : Nat → Nat → Option Nat
  | 0, _ => none
  | fuel + 1, col =>
    if row < BUFFER_HEIGHT ∧ col < BUFFER_WIDTH then
      if (g row col).ascii_character = 0 then some col
      else get_last_col_aux g row fuel (col + 1)
    else none

/-- `Writer::get_last_col`: scan row `row` from column 0 for the first
blank-sentinel cell (character code `0x00`). -/
def Writer.get_last_col (w : Writer) (row : Nat) : Option Nat :=
  get_last_col_aux w.buffer row (BUFFER_WIDTH + 1) 0

/-- `Writer::backspace`: no-op at (0,0); at column 0 move to the previous
row and recompute the column with `get_last_col`; otherwise blank the cell
to the left with the `0x00` sentinel and step the column back. -/
def Writer.backspace (w : Writer) : Option Writer :=
  if w.row_position = 0 ∧ w.column_position = 0 then some w
  else if w.column_position = 0 then
    match w.get_last_col (w.row_position - 1) with
    | some col =>
        some { w with row_position := w.row_position - 1, column_position := col }
    | none => none
  else
    let blank : ScreenChar := ⟨0x00, w.color_code⟩
    match writeCell w.buffer w.row_position (w.column_position - 1) blank with
    | some g => some { w with buffer := g, column_position := w.column_position - 1 }
    | none => none

/-- `Writer::write_string`: classify each byte in order — printable ASCII
`0x20..=0x7e` or `\n` go to `write_byte`, `0x08` to `backspace`, anything
else is written as the placeholder glyph `0xfe`. -/
def Writer.write_string (w : Writer) : List Nat → Option Writer
  | [] => some w
  | byte :: rest =>
    let step : Option Writer :=
      if (0x20 ≤ byte ∧ byte ≤ 0x7e) ∨ byte = 10 then w.write_byte byte
      else if byte = 0x08 then w.backspace
      else w.write_byte 0xfe
    match step with
    | some w' => w'.write_string rest
    | none => none

/-- A sequence of `write_string` calls, in order. -/
def Writer.write_strings (w : Writer) : List (List Nat) → Option Writer
  | [] => some w
  | s :: rest =>
    match w.write_string s with
    | some w' => w'.write_strings rest
    | none => none

/-- `ColorCode::new(foreground, background) = (background << 4) | foreground`. -/
def ColorCode.new (foreground background : Nat) : Nat :=
  background * 16 + foreground

/-- The initial `WRITER` state: cursor (0,0), color `White` on `Black`
(= 15), `input_mode = false`.  The initial grid is taken to be all zero
cells. -/
def WRITER : Writer :=
  { column_position := 0
    row_position := 0
    color_code := ColorCode.new 15 0
    buffer := fun _ _ => ⟨0, 0⟩
    input_mode := false }

/-- A writer on the last row whose grid holds `⟨r + 100, 7⟩` in every cell
of row `r` (a concrete state used to exercise the scroll path). -/
def scrollW : Writer :=
  { WRITER with row_position := 24, buffer := fun r _ => ⟨r + 100, 7⟩ }

/-- A writer at (1, 0) whose row 0 is entirely filled with the printable
byte `0x41`, so the row contains no `0x00` sentinel (a concrete state used
to exercise the unbounded backspace scan). -/
def fullRowW : Writer :=
  { WRITER with row_position := 1,
                buffer := fun r _ => if r = 0 then ⟨0x41, 15⟩ else ⟨0, 0⟩ }

/-- The validity range of the cursor: the row is inside the grid and the
column is at most `BUFFER_WIDTH` (the column rests at exactly 80 after a
placement into the last column; the next placement wraps first). -/
def ValidW (w : Writer) : Prop :=
  w.row_position < BUFFER_HEIGHT ∧ w.column_position ≤ BUFFER_WIDTH

/-- The initial writer with the cursor moved to column 2 (as after writing
two printable bytes). -/
def midW : Writer := { WRITER with column_position := 2 }

/-- The initial writer with the cursor at column 80, the state reached
right after a placement has filled the last column of a row. -/
def wrapW : Writer := { WRITER with column_position := 80 }

/-- A full line of the printable byte `0x41` followed by one more printable
byte `0x42`: exactly `BUFFER_WIDTH` bytes and then one extra. -/
def longLine : List Nat := List.replicate 80 0x41 ++ [0x42]

/-- The writer state after writing the single byte `0x48` from the initial
state: `0x48` at cell (0, 0) and the cursor at column 1. -/
def oneByteW : Writer :=
  { WRITER with buffer := updCell WRITER.buffer 0 0 ⟨0x48, 15⟩,
                column_position := 1 }

/-- Abstract steps of `_print` (src/vga_buffer.rs lines 27–33), in program
order.  `_print` first takes the writer lock to clear `input_mode`, and
only then enters `interrupts::without_interrupts` for the locked
`write_fmt` call. -/
inductive PrintStep where
  | acquire_lock
  | release_lock
  | disable_interrupts
  | enable_interrupts
  | write_op
deriving DecidableEq

/-- The step trace of `_print`: `WRITER.lock().input_mode = false;` (lock,
field write, unlock — all with interrupts still deliverable), then
`without_interrupts { WRITER.lock().write_fmt(args) }`. -/
def print_trace : List PrintStep :=
  [.acquire_lock, .write_op, .release_lock,
   .disable_interrupts, .acquire_lock, .write_op, .release_lock,
   .enable_interrupts]

/-- Whether some lock acquisition in the trace happens while hardware
interrupt delivery is enabled (`enabled` is the current interrupt flag). -/
def locks_with_interrupts_enabled : List PrintStep → Bool → Bool
  | [], _ => false
  | .acquire_lock :: rest, enabled =>
      enabled || locks_with_interrupts_enabled rest enabled
  | .disable_interrupts :: rest, _ => locks_with_interrupts_enabled rest false
  | .enable_interrupts :: rest, _ => locks_with_interrupts_enabled rest true
  | _ :: rest, enabled => locks_with_interrupts_enabled rest enabled

/-! Pointwise characterisations of the grid operations. -/

theorem updCell_eval (g : Grid) (r c : Nat) (v : ScreenChar) (r' c' : Nat) :
    updCell g r c v r' c' = if r' = r ∧ c' = c then v else g r' c' := rfl

theorem clear_fold_eval (row : Nat) (v : ScreenChar) :
    ∀ (L : List Nat) (g : Grid) (r c : Nat),
      (L.foldl (fun g col => updCell g row col v) g) r c
        = if r = row ∧ c ∈ L then v else g r c := by
  intro L
  induction L with
  | nil => intro g r c; simp
  | cons c0 rest ih =>
    intro g r c
    rw [List.foldl_cons, ih, updCell_eval]
    by_cases h1 : r = row ∧ c ∈ rest
    · rw [if_pos h1, if_pos ⟨h1.1, List.mem_cons_of_mem _ h1.2⟩]
    · rw [if_neg h1]
      by_cases h2 : r = row ∧ c = c0
      · rw [if_pos h2, if_pos ⟨h2.1, h2.2 ▸ List.mem_cons_self _ _⟩]
      · rw [if_neg h2, if_neg]
        rintro ⟨hr, hc⟩
        rcases List.mem_cons.mp hc with hc0 | hcr
        · exact h2 ⟨hr, hc0⟩
        · exact h1 ⟨hr, hcr⟩

theorem shift_inner_eval (row : Nat) (hrow : 1 ≤ row) :
    ∀ (L : List Nat) (g : Grid) (r c : Nat),
      (L.foldl (fun g col =>
          let character := g row col
          if row ≤ 0 then g else updCell g (row - 1) col character) g) r c
        = if r = row - 1 ∧ c ∈ L then g row c else g r c := by
  intro L
  induction L with
  | nil => intro g r c; simp
  | cons c0 rest ih =>
    intro g r c
    rw [List.foldl_cons,
      show (let character := g row c0
            if row ≤ 0 then g else updCell g (row - 1) c0 character)
          = updCell g (row - 1) c0 (g row c0) from if_neg (by omega),
      ih]
    simp only [updCell_eval, List.mem_cons]
    rw [if_neg (by omega : ¬(row = row - 1 ∧ c = c0))]
    by_cases hC : r = row - 1 ∧ c = c0
    · obtain ⟨hr, hc⟩ := hC
      subst hr; subst hc
      by_cases hm : c ∈ rest
      · rw [if_pos ⟨rfl, hm⟩, if_pos ⟨rfl, Or.inr hm⟩]
      · rw [if_neg (fun h => hm h.2), if_pos ⟨rfl, rfl⟩, if_pos ⟨rfl, Or.inl rfl⟩]
    · by_cases hA : r = row - 1 ∧ c ∈ rest
      · rw [if_pos hA, if_pos ⟨hA.1, Or.inr hA.2⟩]
      · rw [if_neg hA, if_neg hC, if_neg (fun hD =>
          hD.2.elim (fun h => hC ⟨hD.1, h⟩) (fun h => hA ⟨hD.1, h⟩))]

theorem shift_outer_eval :
    ∀ (n s : Nat) (g : Grid) (r c : Nat), 1 ≤ s →
      ((List.range' s n).foldl (fun g row =>
          (List.range BUFFER_WIDTH).foldl (fun g col =>
            let character := g row col
            if row ≤ 0 then g else updCell g (row - 1) col character) g) g) r c
        = if s ≤ r + 1 ∧ r + 1 < s + n ∧ c < BUFFER_WIDTH then g (r + 1) c
          else g r c := by
  intro n
  induction n with
  | zero =>
    intro s g r c hs
    rw [if_neg (by omega)]
    rfl
  | succ n ih =>
    intro s g r c hs
    have hrange : List.range' s (n + 1) = s :: List.range' (s + 1) n := rfl
    rw [hrange, List.foldl_cons, ih (s + 1) _ r c (by omega)]
    have hinner := shift_inner_eval s hs (List.range BUFFER_WIDTH)
    by_cases h1 : s + 1 ≤ r + 1 ∧ r + 1 < s + 1 + n ∧ c < BUFFER_WIDTH
    · rw [if_pos h1, hinner, if_neg (by omega : ¬((r : Nat) + 1 = s - 1 ∧ c ∈ List.range BUFFER_WIDTH)),
        if_pos (by omega : s ≤ r + 1 ∧ r + 1 < s + (n + 1) ∧ c < BUFFER_WIDTH)]
    · rw [if_neg h1, hinner]
      by_cases h2 : r = s - 1 ∧ c ∈ List.range BUFFER_WIDTH
      · have hc : c < BUFFER_WIDTH := List.mem_range.mp h2.2
        rw [if_pos h2]
        have hr1 : r + 1 = s := by omega
        rw [if_pos (by omega : s ≤ r + 1 ∧ r + 1 < s + (n + 1) ∧ c < BUFFER_WIDTH), hr1]
      · rw [if_neg h2, if_neg]
        rintro ⟨ha, hb, hc⟩
        have : ¬(s + 1 ≤ r + 1) := fun hs1 => h1 ⟨hs1, by omega, hc⟩
        have hr1 : r + 1 = s := by omega
        exact h2 ⟨by omega, List.mem_range.mpr hc⟩

theorem shift_up_buffer (w : Writer) (r c : Nat) :
    (w.shift_up).buffer r c
      = if r < BUFFER_HEIGHT - 1 ∧ c < BUFFER_WIDTH then w.buffer (r + 1) c
        else w.buffer r c := by
  simp only [Writer.shift_up]
  rw [shift_outer_eval (BUFFER_HEIGHT - 1) 1 w.buffer r c (by omega)]
  by_cases h : r < BUFFER_HEIGHT - 1 ∧ c < BUFFER_WIDTH
  · rw [if_pos h, if_pos (by omega : 1 ≤ r + 1 ∧ r + 1 < 1 + (BUFFER_HEIGHT - 1) ∧ c < BUFFER_WIDTH)]
  · rw [if_neg h, if_neg (by omega : ¬(1 ≤ r + 1 ∧ r + 1 < 1 + (BUFFER_HEIGHT - 1) ∧ c < BUFFER_WIDTH))]

theorem clear_row_buffer (w : Writer) (row r c : Nat) :
    ((w.clear_row row).buffer) r c
      = if r = row ∧ c < BUFFER_WIDTH then ⟨0x20, w.color_code⟩
        else w.buffer r c := by
  simp only [Writer.clear_row]
  rw [clear_fold_eval row ⟨0x20, w.color_code⟩ (List.range BUFFER_WIDTH) w.buffer r c]
  by_cases h : r = row ∧ c < BUFFER_WIDTH
  · rw [if_pos ⟨h.1, List.mem_range.mpr h.2⟩, if_pos h]
  · rw [if_neg (fun hm => h ⟨hm.1, List.mem_range.mp hm.2⟩), if_neg h]

theorem shift_up_fields (w : Writer) :
    (w.shift_up).row_position = w.row_position
      ∧ (w.shift_up).column_position = w.column_position
      ∧ (w.shift_up).color_code = w.color_code := ⟨rfl, rfl, rfl⟩

theorem clear_row_fields (w : Writer) (row : Nat) :
    ((w.clear_row row)).row_position = w.row_position
      ∧ (w.clear_row row).column_position = w.column_position
      ∧ (w.clear_row row).color_code = w.color_code := ⟨rfl, rfl, rfl⟩

/-! Characterisations of `new_line`, `write_byte`, `backspace`,
`get_last_col`. -/

theorem new_line_column (w : Writer) : (w.new_line).column_position = 0 := by
  unfold Writer.new_line
  split <;> rfl

theorem new_line_color (w : Writer) : (w.new_line).color_code = w.color_code := by
  unfold Writer.new_line
  split <;> rfl

theorem new_line_input (w : Writer) : (w.new_line).input_mode = w.input_mode := by
  unfold Writer.new_line
  split <;> rfl

theorem new_line_row (w : Writer) :
    (w.new_line).row_position
      = if w.row_position = BUFFER_HEIGHT - 1 then w.row_position
        else w.row_position + 1 := by
  unfold Writer.new_line
  split <;> rfl

theorem new_line_row_lt (w : Writer) (h : w.row_position < BUFFER_HEIGHT) :
    (w.new_line).row_position < BUFFER_HEIGHT := by
  rw [new_line_row]
  revert h
  unfold BUFFER_HEIGHT
  split <;> omega

theorem new_line_of_ne (w : Writer) (h : w.row_position ≠ BUFFER_HEIGHT - 1) :
    w.new_line = { w with row_position := w.row_position + 1,
                          column_position := 0 } := by
  unfold Writer.new_line
  rw [if_neg h]

theorem new_line_buffer_of_ne (w : Writer) (h : w.row_position ≠ BUFFER_HEIGHT - 1) :
    (w.new_line).buffer = w.buffer := by
  rw [new_line_of_ne w h]

theorem new_line_buffer_of_eq (w : Writer) (h : w.row_position = BUFFER_HEIGHT - 1)
    (r c : Nat) :
    (w.new_line).buffer r c
      = if r = BUFFER_HEIGHT - 1 ∧ c < BUFFER_WIDTH then ⟨0x20, w.color_code⟩
        else if r < BUFFER_HEIGHT - 1 ∧ c < BUFFER_WIDTH then w.buffer (r + 1) c
        else w.buffer r c := by
  unfold Writer.new_line
  rw [if_pos h]
  show ((w.shift_up).clear_row (BUFFER_HEIGHT - 1)).buffer r c = _
  rw [clear_row_buffer]
  have hcol : (w.shift_up).color_code = w.color_code := rfl
  rw [hcol]
  by_cases h1 : r = BUFFER_HEIGHT - 1 ∧ c < BUFFER_WIDTH
  · rw [if_pos h1, if_pos h1]
  · rw [if_neg h1, if_neg h1, shift_up_buffer]

theorem write_byte_newline (w : Writer) : w.write_byte 10 = some w.new_line := rfl

theorem write_byte_place (w : Writer) (b : Nat) (hb : b ≠ 10)
    (hrow : w.row_position < BUFFER_HEIGHT)
    (hcol : w.column_position < BUFFER_WIDTH) :
    w.write_byte b
      = some { w with
          buffer := updCell w.buffer w.row_position w.column_position
            ⟨b, w.color_code⟩,
          column_position := w.column_position + 1 } := by
  unfold Writer.write_byte writeCell
  rw [if_neg hb]
  simp only [if_neg (by omega : ¬BUFFER_WIDTH ≤ w.column_position),
    if_pos (show w.row_position < BUFFER_HEIGHT ∧ w.column_position < BUFFER_WIDTH
      from ⟨hrow, hcol⟩)]

theorem write_byte_wrap (w : Writer) (b : Nat) (hb : b ≠ 10)
    (hcol : BUFFER_WIDTH ≤ w.column_position) :
    w.write_byte b = (w.new_line).write_byte b := by
  unfold Writer.write_byte
  rw [if_neg hb, if_neg hb, if_pos hcol,
    if_neg (by rw [new_line_column]; unfold BUFFER_WIDTH; omega :
      ¬BUFFER_WIDTH ≤ (w.new_line).column_position)]

theorem get_last_col_aux_some (g : Grid) (row : Nat) (hrow : row < BUFFER_HEIGHT) :
    ∀ (fuel c j : Nat), c ≤ j → j < BUFFER_WIDTH → j - c < fuel →
      (g row j).ascii_character = 0 →
      (∀ k, c ≤ k → k < j → (g row k).ascii_character ≠ 0) →
      get_last_col_aux g row fuel c = some j := by
  intro fuel
  induction fuel with
  | zero => intro c j _ _ h; omega
  | succ fuel ih =>
    intro c j hcj hj hfuel hz hmin
    unfold get_last_col_aux
    rw [if_pos ⟨hrow, by omega⟩]
    by_cases hc : c = j
    · subst hc
      rw [if_pos hz]
    · rw [if_neg (hmin c le_rfl (by omega))]
      exact ih (c + 1) j (by omega) hj (by omega) hz
        (fun k hk1 hk2 => hmin k (by omega) hk2)

theorem get_last_col_aux_lt (g : Grid) (row : Nat) :
    ∀ (fuel c j : Nat), get_last_col_aux g row fuel c = some j →
      j < BUFFER_WIDTH := by
  intro fuel
  induction fuel with
  | zero => intro c j h; exact absurd h (by unfold get_last_col_aux; simp)
  | succ fuel ih =>
    intro c j h
    unfold get_last_col_aux at h
    by_cases hb : row < BUFFER_HEIGHT ∧ c < BUFFER_WIDTH
    · rw [if_pos hb] at h
      by_cases hz : (g row c).ascii_character = 0
      · rw [if_pos hz] at h
        cases h
        exact hb.2
      · rw [if_neg hz] at h
        exact ih (c + 1) j h
    · rw [if_neg hb] at h
      cases h

theorem get_last_col_spec (w : Writer) (row j : Nat)
    (hrow : row < BUFFER_HEIGHT) (hj : j < BUFFER_WIDTH)
    (hz : (w.buffer row j).ascii_character = 0)
    (hmin : ∀ k, k < j → (w.buffer row k).ascii_character ≠ 0) :
    w.get_last_col row = some j := by
  unfold Writer.get_last_col
  exact get_last_col_aux_some w.buffer row hrow (BUFFER_WIDTH + 1) 0 j
    (Nat.zero_le j) hj (by omega) hz (fun k _ hk => hmin k hk)

theorem backspace_origin (w : Writer) (h0 : w.row_position = 0)
    (h1 : w.column_position = 0) : w.backspace = some w := by
  unfold Writer.backspace
  rw [if_pos ⟨h0, h1⟩]

theorem backspace_mid (w : Writer) (hc : 0 < w.column_position)
    (hrow : w.row_position < BUFFER_HEIGHT)
    (hcol : w.column_position ≤ BUFFER_WIDTH) :
    w.backspace
      = some { w with
          buffer := updCell w.buffer w.row_position (w.column_position - 1)
            ⟨0x00, w.color_code⟩,
          column_position := w.column_position - 1 } := by
  unfold Writer.backspace writeCell
  rw [if_neg (by omega : ¬(w.row_position = 0 ∧ w.column_position = 0)),
    if_neg (by omega : ¬w.column_position = 0)]
  simp only [if_pos (show w.row_position < BUFFER_HEIGHT
      ∧ w.column_position - 1 < BUFFER_WIDTH from ⟨hrow, by omega⟩)]

theorem backspace_prev_row (w : Writer) (j : Nat)
    (hc : w.column_position = 0) (hr : 0 < w.row_position)
    (hget : w.get_last_col (w.row_position - 1) = some j) :
    w.backspace
      = some { w with row_position := w.row_position - 1,
                      column_position := j } := by
  unfold Writer.backspace
  rw [if_neg (by omega : ¬(w.row_position = 0 ∧ w.column_position = 0)),
    if_pos hc, hget]

/-! Preservation of cursor validity, and `write_string` structure. -/

theorem new_line_valid (w : Writer) (h : ValidW w) : ValidW w.new_line := by
  refine ⟨new_line_row_lt w h.1, ?_⟩
  rw [new_line_column]
  exact Nat.zero_le _

theorem write_byte_valid (w : Writer) (b : Nat) (w' : Writer)
    (hv : ValidW w) (h : w.write_byte b = some w') : ValidW w' := by
  by_cases hb : b = 10
  · subst hb
    rw [write_byte_newline] at h
    cases h
    exact new_line_valid w hv
  · by_cases hcol : w.column_position < BUFFER_WIDTH
    · rw [write_byte_place w b hb hv.1 hcol] at h
      cases h
      exact ⟨hv.1, by show w.column_position + 1 ≤ BUFFER_WIDTH; omega⟩
    · rw [write_byte_wrap w b hb (by omega)] at h
      have hv' : ValidW w.new_line := new_line_valid w hv
      have hcol' : (w.new_line).column_position < BUFFER_WIDTH := by
        rw [new_line_column]; unfold BUFFER_WIDTH; omega
      rw [write_byte_place _ b hb hv'.1 hcol'] at h
      cases h
      exact ⟨hv'.1, by show (w.new_line).column_position + 1 ≤ BUFFER_WIDTH; omega⟩

theorem backspace_valid (w : Writer) (w' : Writer)
    (hv : ValidW w) (h : w.backspace = some w') : ValidW w' := by
  by_cases h0 : w.row_position = 0 ∧ w.column_position = 0
  · rw [backspace_origin w h0.1 h0.2] at h
    cases h
    exact hv
  · by_cases hc : w.column_position = 0
    · have hr : 0 < w.row_position := by omega
      unfold Writer.backspace at h
      rw [if_neg h0, if_pos hc] at h
      rcases hget : w.get_last_col (w.row_position - 1) with _ | j
      · rw [hget] at h; cases h
      · rw [hget] at h
        cases h
        have hj : j < BUFFER_WIDTH :=
          get_last_col_aux_lt w.buffer (w.row_position - 1) (BUFFER_WIDTH + 1) 0 j hget
        exact ⟨by have := hv.1; show w.row_position - 1 < BUFFER_HEIGHT; omega,
          by show j ≤ BUFFER_WIDTH; omega⟩
    · rw [backspace_mid w (by omega) hv.1 hv.2] at h
      cases h
      exact ⟨hv.1, by show w.column_position - 1 ≤ BUFFER_WIDTH; have := hv.2; omega⟩

theorem write_string_valid :
    ∀ (s : List Nat) (w w' : Writer), ValidW w →
      w.write_string s = some w' → ValidW w' := by
  intro s
  induction s with
  | nil =>
    intro w w' hv h
    cases h
    exact hv
  | cons b rest ih =>
    intro w w' hv h
    unfold Writer.write_string at h
    by_cases h1 : (0x20 ≤ b ∧ b ≤ 0x7e) ∨ b = 10
    · rw [if_pos h1] at h
      rcases hs : w.write_byte b with _ | w1
      · rw [hs] at h; cases h
      · rw [hs] at h
        exact ih w1 w' (write_byte_valid w b w1 hv hs) h
    · rw [if_neg h1] at h
      by_cases h2 : b = 0x08
      · rw [if_pos h2] at h
        rcases hs : w.backspace with _ | w1
        · rw [hs] at h; cases h
        · rw [hs] at h
          exact ih w1 w' (backspace_valid w w1 hv hs) h
      · rw [if_neg h2] at h
        rcases hs : w.write_byte 0xfe with _ | w1
        · rw [hs] at h; cases h
        · rw [hs] at h
          exact ih w1 w' (write_byte_valid w 0xfe w1 hv hs) h

theorem write_strings_valid :
    ∀ (ss : List (List Nat)) (w w' : Writer), ValidW w →
      w.write_strings ss = some w' → ValidW w' := by
  intro ss
  induction ss with
  | nil =>
    intro w w' hv h
    cases h
    exact hv
  | cons s rest ih =>
    intro w w' hv h
    unfold Writer.write_strings at h
    rcases hs : w.write_string s with _ | w1
    · rw [hs] at h; cases h
    · rw [hs] at h
      exact ih w1 w' (write_string_valid s w w1 hv hs) h

theorem write_string_cons (w : Writer) (b : Nat) (rest : List Nat) :
    w.write_string (b :: rest)
      = (if (0x20 ≤ b ∧ b ≤ 0x7e) ∨ b = 10 then w.write_byte b
         else if b = 0x08 then w.backspace
         else w.write_byte 0xfe).bind (fun w1 => w1.write_string rest) := by
  conv_lhs => unfold Writer.write_string
  rcases (if (0x20 ≤ b ∧ b ≤ 0x7e) ∨ b = 10 then w.write_byte b
      else if b = 0x08 then w.backspace else w.write_byte 0xfe) with _ | w1
  · rfl
  · rfl

theorem write_string_append :
    ∀ (s1 s2 : List Nat) (w : Writer),
      w.write_string (s1 ++ s2)
        = (w.write_string s1).bind (fun w1 => w1.write_string s2) := by
  intro s1
  induction s1 with
  | nil => intro s2 w; rfl
  | cons b rest ih =>
    intro s2 w
    rw [show (b :: rest) ++ s2 = b :: (rest ++ s2) from rfl,
      write_string_cons, write_string_cons]
    rcases (if (0x20 ≤ b ∧ b ≤ 0x7e) ∨ b = 10 then w.write_byte b
        else if b = 0x08 then w.backspace else w.write_byte 0xfe) with _ | w1
    · rfl
    · exact ih s2 w1

/-! Writing a run of printable bytes that fits in the current row. -/

theorem write_string_printable :
    ∀ (s : List Nat) (w : Writer),
      (∀ b ∈ s, 0x20 ≤ b ∧ b ≤ 0x7e) →
      w.row_position < BUFFER_HEIGHT →
      w.column_position + s.length ≤ BUFFER_WIDTH →
      ∃ w', w.write_string s = some w'
        ∧ w'.row_position = w.row_position
        ∧ w'.column_position = w.column_position + s.length
        ∧ w'.color_code = w.color_code
        ∧ (∀ r c : Nat,
            ¬(r = w.row_position ∧ w.column_position ≤ c
                ∧ c < w.column_position + s.length) →
            w'.buffer r c = w.buffer r c)
        ∧ (∀ i : Nat, ∀ h : i < s.length,
            w'.buffer w.row_position (w.column_position + i)
              = ⟨s.get ⟨i, h⟩, w.color_code⟩) := by
  intro s
  induction s with
  | nil =>
    intro w _ _ _
    exact ⟨w, rfl, rfl, (Nat.add_zero _).symm, rfl,
      fun r c _ => rfl, fun i h => absurd h (by simp)⟩
  | cons b rest ih =>
    intro w hall hrow hlen
    have hb := hall b (List.mem_cons_self b rest)
    have hlcons : (b :: rest).length = rest.length + 1 := rfl
    have hcol : w.column_position < BUFFER_WIDTH := by
      rw [hlcons] at hlen; omega
    have hplace := write_byte_place w b (by omega) hrow hcol
    set w1 : Writer :=
      { w with
        buffer := updCell w.buffer w.row_position w.column_position
          ⟨b, w.color_code⟩,
        column_position := w.column_position + 1 } with hw1
    obtain ⟨w', hws, hrow', hcol', hcolor', hframe, hcells⟩ :=
      ih w1 (fun x hx => hall x (List.mem_cons_of_mem b hx))
        hrow (by rw [hlcons] at hlen; show w.column_position + 1 + _ ≤ _; omega)
    refine ⟨w', ?_, ?_, ?_, ?_, ?_, ?_⟩
    · rw [write_string_cons, if_pos (Or.inl hb), hplace]
      simpa using hws
    · exact hrow'
    · rw [hcol', hlcons]
      show w.column_position + 1 + rest.length = _
      omega
    · exact hcolor'
    · intro r c hout
      rw [hlcons] at hout
      have hw1row : w1.row_position = w.row_position := rfl
      have hw1col : w1.column_position = w.column_position + 1 := rfl
      have h1 : w'.buffer r c = w1.buffer r c := by
        apply hframe
        rintro ⟨hr, hc1, hc2⟩
        rw [hw1col] at hc1 hc2
        rw [hw1row] at hr
        exact hout ⟨hr, by omega, by omega⟩
      rw [h1]
      show updCell w.buffer w.row_position w.column_position
        ⟨b, w.color_code⟩ r c = w.buffer r c
      rw [updCell_eval, if_neg]
      rintro ⟨hr, hcc⟩
      exact hout ⟨hr, by omega, by omega⟩
    · intro i h
      match i with
      | 0 =>
        have h1 : w'.buffer w.row_position (w.column_position + 0)
            = w1.buffer w.row_position (w.column_position + 0) := by
          apply hframe
          rintro ⟨_, hc1, _⟩
          rw [show w1.column_position = w.column_position + 1 from rfl] at hc1
          omega
        rw [h1]
        show updCell w.buffer w.row_position w.column_position
          ⟨b, w.color_code⟩ w.row_position (w.column_position + 0)
            = ⟨b, w.color_code⟩
        rw [updCell_eval, if_pos ⟨rfl, Nat.add_zero _⟩]
      | i' + 1 =>
        have h' : i' < rest.length := by rw [hlcons] at h; omega
        have hc := hcells i' h'
        have heq : w1.column_position + i' = w.column_position + (i' + 1) := by
          show w.column_position + 1 + i' = _
          omega
        rw [heq] at hc
        rw [show w1.row_position = w.row_position from rfl] at hc
        rw [hc]
        rfl

/-! The claims. -/

/-- C1: character placement.  For every byte classified as printable or
placeholder (any byte other than `\n` reaching `write_byte`): if the
cursor's column has reached `W = 80` a newline transition is performed
first; then the byte and the fixed color attribute are written into the
cell at the current (row, column) and the column advances by 1, so the
column may equal exactly `W` after the call, the wrap being performed by
the next placement call.  Writing exactly `W` printable bytes from column 0
and then one more byte leaves the extra byte at column 0 of the next row,
not at column `W` of the original row. -/
theorem claim_c1_placement :
    (∀ (w : Writer) (b : Nat), b ≠ 10 → w.row_position < BUFFER_HEIGHT →
      (w.column_position < BUFFER_WIDTH →
        w.write_byte b = some { w with
          buffer := updCell w.buffer w.row_position w.column_position
            ⟨b, w.color_code⟩,
          column_position := w.column_position + 1 })
      ∧ (w.column_position = BUFFER_WIDTH →
        w.write_byte b = some { w.new_line with
          buffer := updCell (w.new_line).buffer (w.new_line).row_position 0
            ⟨b, w.color_code⟩,
          column_position := 1 }))
    ∧ (WRITER.write_string longLine).map
        (fun w => (w.row_position, w.column_position)) = some (1, 1)
    ∧ (WRITER.write_string longLine).bind
        (fun w => readCell w.buffer 1 0) = some ⟨0x42, 15⟩
    ∧ (WRITER.write_string longLine).bind
        (fun w => readCell w.buffer 0 79) = some ⟨0x41, 15⟩ := by
  refine ⟨?_, by decide, by decide, by decide⟩
  intro w b hb hrow
  constructor
  · intro hcol
    exact write_byte_place w b hb hrow hcol
  · intro hcol
    rw [write_byte_wrap w b hb (by omega)]
    rw [write_byte_place w.new_line b hb (new_line_row_lt w hrow)
      (by rw [new_line_column]; unfold BUFFER_WIDTH; omega)]
    simp only [new_line_column, new_line_color, Nat.zero_add]

theorem claim_c1_placement_witness :
    WRITER.column_position < BUFFER_WIDTH
    ∧ WRITER.write_byte 0x41 = some { WRITER with
        buffer := updCell WRITER.buffer WRITER.row_position
          WRITER.column_position ⟨0x41, WRITER.color_code⟩,
        column_position := WRITER.column_position + 1 } :=
  ⟨by decide,
    (claim_c1_placement.1 WRITER 0x41 (by decide) (by decide)).1 (by decide)⟩

/-- C2: newline transition.  On the last row `H - 1 = 24`, `new_line`
shifts every row up by one (row `r` takes the old contents of row `r + 1`
for every `r < H - 1`, so row 0's original contents are discarded) and
clears the bottom row to cells with character `0x20` and the current color;
on any other row it increments the row by 1 and leaves the grid unchanged;
in both cases the column resets to 0. -/
theorem claim_c2_newline (w : Writer) :
    (w.row_position = BUFFER_HEIGHT - 1 →
      (∀ r c : Nat, r < BUFFER_HEIGHT - 1 → c < BUFFER_WIDTH →
        (w.new_line).buffer r c = w.buffer (r + 1) c)
      ∧ (∀ c : Nat, c < BUFFER_WIDTH →
        (w.new_line).buffer (BUFFER_HEIGHT - 1) c = ⟨0x20, w.color_code⟩)
      ∧ (w.new_line).column_position = 0)
    ∧ (w.row_position ≠ BUFFER_HEIGHT - 1 →
      (w.new_line).row_position = w.row_position + 1
      ∧ (w.new_line).buffer = w.buffer
      ∧ (w.new_line).column_position = 0) := by
  constructor
  · intro h
    refine ⟨?_, ?_, new_line_column w⟩
    · intro r c hr hc
      rw [new_line_buffer_of_eq w h, if_neg (by omega : ¬(r = BUFFER_HEIGHT - 1 ∧ c < BUFFER_WIDTH)),
        if_pos ⟨hr, hc⟩]
    · intro c hc
      rw [new_line_buffer_of_eq w h, if_pos ⟨rfl, hc⟩]
  · intro h
    rw [new_line_of_ne w h]
    exact ⟨rfl, rfl, rfl⟩

theorem claim_c2_newline_witness :
    scrollW.row_position = BUFFER_HEIGHT - 1
    ∧ (scrollW.new_line).buffer 0 0 = scrollW.buffer 1 0
    ∧ (scrollW.new_line).buffer (BUFFER_HEIGHT - 1) 7 = ⟨0x20, 15⟩
    ∧ (scrollW.new_line).column_position = 0 :=
  ⟨rfl,
    ((claim_c2_newline scrollW).1 rfl).1 0 0 (by decide) (by decide),
    ((claim_c2_newline scrollW).1 rfl).2.1 7 (by decide),
    ((claim_c2_newline scrollW).1 rfl).2.2⟩

/-- C3 (counterexample): the claim asserts the backspace row-end scan stops
when "a cell with character code 0x00 is found or the row ends".  At a
state with column 0 and row 1 whose row 0 holds a printable byte in all 80
columns, the scan never finds a sentinel and does not stop at the row end:
the code indexes `chars[0][80]`, out of bounds, and the operation fails
(`none` in the model) instead of moving the cursor. -/
theorem claim_c3_backspace_counterexample :
    fullRowW.column_position = 0
    ∧ 0 < fullRowW.row_position
    ∧ (∀ c : Nat, c < BUFFER_WIDTH →
        (fullRowW.buffer (fullRowW.row_position - 1) c).ascii_character ≠ 0)
    ∧ (fullRowW.backspace).isSome = false := by
  refine ⟨rfl, by decide, ?_, by decide⟩
  intro c _
  show (0x41 : Nat) ≠ 0
  decide

/-- C3 (amended): backspace away from the origin.  When the column is
positive, the cell at (row, column−1) is overwritten with the
blank-sentinel cell (character 0x00) carrying the current color and the
column decrements by 1 (writing "AB" then one backspace leaves the column
at the position of 'B' with that cell reset to the sentinel); when the
column is 0 and the row is positive, the cursor moves to the previous row
and the column is set to the first position of that row holding the
sentinel 0x00 (the position one past the last non-blank cell), found by
scanning forward from column 0; if the row contains no sentinel cell the
scan runs past the row end and the operation fails rather than stopping at
`W` (the latent out-of-bounds bug, see C4). -/
theorem claim_c3_backspace :
    (∀ w : Writer,
      (0 < w.column_position → w.row_position < BUFFER_HEIGHT →
        w.column_position ≤ BUFFER_WIDTH →
        w.backspace = some { w with
          buffer := updCell w.buffer w.row_position (w.column_position - 1)
            ⟨0x00, w.color_code⟩,
          column_position := w.column_position - 1 })
      ∧ (∀ j : Nat, w.column_position = 0 → 0 < w.row_position →
          w.row_position < BUFFER_HEIGHT → j < BUFFER_WIDTH →
          (w.buffer (w.row_position - 1) j).ascii_character = 0 →
          (∀ k, k < j → (w.buffer (w.row_position - 1) k).ascii_character ≠ 0) →
          w.backspace = some { w with row_position := w.row_position - 1,
                                      column_position := j }))
    ∧ (WRITER.write_string [0x41, 0x42, 0x08]).map
        (fun w => (w.row_position, w.column_position)) = some (0, 1)
    ∧ (WRITER.write_string [0x41, 0x42, 0x08]).bind
        (fun w => readCell w.buffer 0 1) = some ⟨0x00, 15⟩
    ∧ (WRITER.write_string [0x41, 0x42, 0x08]).bind
        (fun w => readCell w.buffer 0 0) = some ⟨0x41, 15⟩ := by
  refine ⟨?_, by decide, by decide, by decide⟩
  intro w
  constructor
  · intro hc hrow hcol
    exact backspace_mid w hc hrow hcol
  · intro j hc hr hrow hj hz hmin
    exact backspace_prev_row w j hc hr
      (get_last_col_spec w (w.row_position - 1) j (by omega) hj hz hmin)

theorem claim_c3_backspace_witness :
    0 < midW.column_position
    ∧ midW.backspace = some { midW with
        buffer := updCell midW.buffer midW.row_position
          (midW.column_position - 1) ⟨0x00, midW.color_code⟩,
        column_position := midW.column_position - 1 } :=
  ⟨by decide, (claim_c3_backspace.1 midW).1 (by decide) (by decide) (by decide)⟩

/-- C4: evaluation of the code at the failing input.  From the initial
writer, writing a full row of printable bytes, one more byte (which wraps
to row 1), and then two backspaces drives the second backspace to scan row
0 — which holds no 0x00 sentinel in any of its 80 columns — so the scan
does not stop at `W`: it indexes `chars[0][80]`, out of bounds, and
`write_string` fails (`none` models the Rust panic), contradicting the
claim that `write_string` never fails and the scan is bounded by `W`. -/
theorem claim_c4_unbounded_scan :
    (WRITER.write_string (List.replicate 80 0x41 ++ [0x42, 0x08, 0x08])).isSome
      = false := by decide

/-- C5: byte classification.  `write_string` processes its input in order
(splitting at any point commutes with sequencing); a byte in
`0x20..=0x7E` or the byte 0x0A goes to `write_byte` (the
character-placement or newline handler), the byte 0x08 goes to `backspace`
(the erase handler), and any other byte is placed as the placeholder glyph
0xFE through the same `write_byte` path, rendering 0xFE at the current
cursor position and still advancing the cursor column by one. -/
theorem claim_c5_classification :
    (∀ (w : Writer) (s1 s2 : List Nat),
      w.write_string (s1 ++ s2)
        = (w.write_string s1).bind (fun w1 => w1.write_string s2))
    ∧ (∀ (w : Writer) (b : Nat), (0x20 ≤ b ∧ b ≤ 0x7e) ∨ b = 10 →
        w.write_string [b] = w.write_byte b)
    ∧ (∀ w : Writer, w.write_string [0x08] = w.backspace)
    ∧ (∀ (w : Writer) (b : Nat), ¬((0x20 ≤ b ∧ b ≤ 0x7e) ∨ b = 10) → b ≠ 0x08 →
        w.write_string [b] = w.write_byte 0xfe)
    ∧ (∀ (w : Writer) (b : Nat), ¬(0x20 ≤ b ∧ b ≤ 0x7e) → b ≠ 10 → b ≠ 0x08 →
        w.row_position < BUFFER_HEIGHT → w.column_position < BUFFER_WIDTH →
        (w.write_string [b]).bind
            (fun w1 => readCell w1.buffer w.row_position w.column_position)
          = some ⟨0xfe, w.color_code⟩
        ∧ (w.write_string [b]).map (fun w1 => w1.column_position)
          = some (w.column_position + 1)) := by
  have hsingle : ∀ (w : Writer) (b : Nat),
      w.write_string [b]
        = (if (0x20 ≤ b ∧ b ≤ 0x7e) ∨ b = 10 then w.write_byte b
           else if b = 0x08 then w.backspace
           else w.write_byte 0xfe) := by
    intro w b
    rw [write_string_cons]
    rcases (if (0x20 ≤ b ∧ b ≤ 0x7e) ∨ b = 10 then w.write_byte b
        else if b = 0x08 then w.backspace else w.write_byte 0xfe) with _ | w1
    · rfl
    · rfl
  refine ⟨fun w s1 s2 => write_string_append s1 s2 w, ?_, ?_, ?_, ?_⟩
  · intro w b hb
    rw [hsingle, if_pos hb]
  · intro w
    rw [hsingle, if_neg (by decide), if_pos rfl]
  · intro w b hb h8
    rw [hsingle, if_neg hb, if_neg h8]
  · intro w b hb h10 h8 hrow hcol
    have hfe : w.write_string [b] = w.write_byte 0xfe := by
      rw [hsingle, if_neg (by rintro (h | h) <;> [exact hb h; exact h10 h]),
        if_neg h8]
    rw [hfe, write_byte_place w 0xfe (by decide) hrow hcol]
    constructor
    · show readCell (updCell w.buffer w.row_position w.column_position
        ⟨0xfe, w.color_code⟩) w.row_position w.column_position = _
      unfold readCell
      rw [if_pos ⟨hrow, hcol⟩, updCell_eval, if_pos ⟨rfl, rfl⟩]
    · rfl

theorem claim_c5_classification_witness :
    ¬(0x20 ≤ 1 ∧ (1 : Nat) ≤ 0x7e)
    ∧ (WRITER.write_string [1]).bind
        (fun w1 => readCell w1.buffer WRITER.row_position WRITER.column_position)
      = some ⟨0xfe, WRITER.color_code⟩
    ∧ (WRITER.write_string [1]).map (fun w1 => w1.column_position)
      = some (WRITER.column_position + 1) :=
  ⟨by decide,
    (claim_c5_classification.2.2.2.2 WRITER 1 (by decide) (by decide)
      (by decide) (by decide) (by decide)).1,
    (claim_c5_classification.2.2.2.2 WRITER 1 (by decide) (by decide)
      (by decide) (by decide) (by decide)).2⟩

/-- C6 (counterexample): the claim asserts the column stays in `[0, 80)`
after every completed `write_string` call; but writing exactly 80 printable
bytes from the initial state leaves the column resting at exactly 80 after
the call returns. -/
theorem claim_c6_invariant_counterexample :
    WRITER.row_position < BUFFER_HEIGHT
    ∧ WRITER.column_position < BUFFER_WIDTH
    ∧ (WRITER.write_strings [List.replicate 80 0x41]).map
        (fun w => w.column_position) = some 80 := by
  refine ⟨by decide, by decide, by decide⟩

/-- C6 (amended): cursor invariant.  Starting from any state with row in
`[0, H)` and column in `[0, W)`, after any sequence of `write_string`
calls that completes (returns `some`), the cursor satisfies row in
`[0, 25)` and column in `[0, 80]`: the column may persist at exactly
`W = 80` when the last placement filled the last column (the wrap happens
at the start of the next placement), but never exceeds it. -/
theorem claim_c6_invariant (ss : List (List Nat)) (w w' : Writer)
    (hrow : w.row_position < BUFFER_HEIGHT)
    (hcol : w.column_position < BUFFER_WIDTH)
    (h : w.write_strings ss = some w') :
    w'.row_position < BUFFER_HEIGHT ∧ w'.column_position ≤ BUFFER_WIDTH :=
  write_strings_valid ss w w' ⟨hrow, by omega⟩ h

theorem claim_c6_invariant_witness :
    WRITER.row_position < BUFFER_HEIGHT
    ∧ WRITER.column_position < BUFFER_WIDTH
    ∧ WRITER.write_strings [[0x48]] = some oneByteW
    ∧ oneByteW.row_position < BUFFER_HEIGHT
    ∧ oneByteW.column_position ≤ BUFFER_WIDTH :=
  ⟨by decide, by decide, rfl,
    (claim_c6_invariant [[0x48]] WRITER oneByteW (by decide) (by decide) rfl).1,
    (claim_c6_invariant [[0x48]] WRITER oneByteW (by decide) (by decide) rfl).2⟩

/-- C7 (counterexample): the claim quantifies over any string of printable
bytes; for the 81-byte printable string `longLine` written from the fresh
line (0, 0), the 81st byte `0x42` wraps to row 1 and appears in no column
of row 0 — reading back the written row cannot reproduce the string's
bytes. -/
theorem claim_c7_roundtrip_counterexample :
    (∀ b ∈ longLine, 0x20 ≤ b ∧ b ≤ 0x7e)
    ∧ 0x42 ∈ longLine
    ∧ WRITER.column_position = 0
    ∧ (WRITER.write_string longLine).map
        (fun w' => (List.range BUFFER_WIDTH).all
          (fun c => (w'.buffer 0 c).ascii_character != 0x42)) = some true := by
  refine ⟨?_, by decide, rfl, by decide⟩
  intro b hb
  rcases List.mem_append.mp hb with h | h
  · rw [List.eq_of_mem_replicate h]
    decide
  · rw [List.mem_singleton.mp h]
    decide

/-- C7 (amended): printable round-trip.  For any string composed only of
bytes in 0x20–0x7E whose length is at most `W = 80`, writing it with
`write_string` starting at column 0 of some row and then reading back that
row's cells reproduces exactly the string's bytes in the same column
order. -/
theorem claim_c7_roundtrip (s : List Nat) (w : Writer) (i : Nat)
    (h : i < s.length)
    (hall : ∀ b ∈ s, 0x20 ≤ b ∧ b ≤ 0x7e)
    (hlen : s.length ≤ BUFFER_WIDTH)
    (hrow : w.row_position < BUFFER_HEIGHT)
    (hcol : w.column_position = 0) :
    (w.write_string s).bind (fun w' => readCell w'.buffer w.row_position i)
      = some ⟨s.get ⟨i, h⟩, w.color_code⟩ := by
  obtain ⟨w', hws, hrow', hcol', hcolor', hframe, hcells⟩ :=
    write_string_printable s w hall hrow (by omega)
  rw [hws]
  show readCell w'.buffer w.row_position i = _
  unfold readCell
  rw [if_pos ⟨hrow, by omega⟩]
  have hcell := hcells i h
  rw [hcol, Nat.zero_add] at hcell
  rw [hcell]

theorem claim_c7_roundtrip_witness :
    (1 < ([0x48, 0x49] : List Nat).length)
    ∧ (WRITER.write_string [0x48, 0x49]).bind
        (fun w' => readCell w'.buffer WRITER.row_position 1)
      = some ⟨0x49, WRITER.color_code⟩ :=
  ⟨by decide,
    claim_c7_roundtrip [0x48, 0x49] WRITER 1 (by decide) (by decide)
      (by decide) (by decide) (by decide)⟩

/-- C8: evaluation of the lock/interrupt discipline of `_print` at its
step trace.  `_print` performs its first acquisition of the writer's spin
lock (the `input_mode` update) before entering `without_interrupts`, so
the trace contains a lock acquisition made while hardware interrupt
delivery is still enabled — contradicting the claim that every
multi-step entry point suspends interrupts for the entire duration of lock
acquisition plus the protected operation. -/
theorem claim_c8_print_locks_with_interrupts_enabled :
    locks_with_interrupts_enabled print_trace true = true := rfl

/-- C9: backspace at the origin is a no-op.  Processing the byte 0x08 when
the cursor is at row 0 and column 0 leaves the whole writer state — every
cell of the grid and both cursor coordinates — unchanged. -/
theorem claim_c9_backspace_origin (w : Writer)
    (hrow : w.row_position = 0) (hcol : w.column_position = 0) :
    w.write_string [0x08] = some w := by
  rw [write_string_cons, if_neg (by decide), if_pos rfl,
    backspace_origin w hrow hcol]
  rfl

theorem claim_c9_backspace_origin_witness :
    WRITER.row_position = 0 ∧ WRITER.column_position = 0
    ∧ WRITER.write_string [0x08] = some WRITER :=
  ⟨rfl, rfl, claim_c9_backspace_origin WRITER rfl rfl⟩

/-- C10: newline at a full line.  For every writer state with column equal
to `W = 80`, processing the byte 0x0A performs exactly one newline
transition — `write_byte` matches the newline byte before the wrap check,
so the cursor ends at column 0 exactly one row down when not on the last
row (with the grid untouched, i.e. no extra blank line), and at column 0
of the same bottom row after one scroll when on the last row. -/
theorem claim_c10_newline_at_full_column (w : Writer)
    (_hcol : w.column_position = BUFFER_WIDTH)
    (_hrow : w.row_position < BUFFER_HEIGHT) :
    w.write_byte 10 = some w.new_line
    ∧ (w.new_line).column_position = 0
    ∧ (w.row_position < BUFFER_HEIGHT - 1 →
        (w.new_line).row_position = w.row_position + 1
        ∧ (w.new_line).buffer = w.buffer)
    ∧ (w.row_position = BUFFER_HEIGHT - 1 →
        (w.new_line).row_position = w.row_position
        ∧ ∀ c : Nat, c < BUFFER_WIDTH →
            (w.new_line).buffer (BUFFER_HEIGHT - 1) c = ⟨0x20, w.color_code⟩) := by
  refine ⟨write_byte_newline w, new_line_column w, ?_, ?_⟩
  · intro h
    have hne : w.row_position ≠ BUFFER_HEIGHT - 1 := by omega
    rw [new_line_of_ne w hne]
    exact ⟨rfl, rfl⟩
  · intro h
    constructor
    · rw [new_line_row, if_pos h]
    · intro c hc
      rw [new_line_buffer_of_eq w h, if_pos ⟨rfl, hc⟩]

theorem claim_c10_newline_at_full_column_witness :
    wrapW.column_position = BUFFER_WIDTH
    ∧ wrapW.write_byte 10 = some wrapW.new_line
    ∧ (wrapW.new_line).column_position = 0
    ∧ (wrapW.new_line).row_position = wrapW.row_position + 1
    ∧ (wrapW.new_line).buffer = wrapW.buffer :=
  ⟨rfl,
    (claim_c10_newline_at_full_column wrapW rfl (by decide)).1,
    (claim_c10_newline_at_full_column wrapW rfl (by decide)).2.1,
    ((claim_c10_newline_at_full_column wrapW rfl (by decide)).2.2.1 (by decide)).1,
    ((claim_c10_newline_at_full_column wrapW rfl (by decide)).2.2.1 (by decide)).2⟩

end VgaBuffer
